import Mathlib

/-!
Verification of `gs_quant/markets/historical.py`: the fan-out/fan-in
future-composition engine (`HistoricalPricingFuture._set_result`,
`HistoricalPricingContext.__init__` / `resolve_fields` / `calc`).

The embedding is shallow. Result values are a small inductive `RVal`;
concurrency machinery is flattened: `_set_result` is modelled as a pure
function from the ordered list of resolved child values to the `Option` of
the value set on the outward result future (`none` = the Python code raised
while composing, so no value is set and the failure propagates to the
outward future).

The `compose` capability of result values is implemented by concrete result
classes in `gs_quant.risk` (outside this file's source); it is therefore a
parameter `c : RVal → List RVal → RVal` (receiver, arguments) of every
definition and theorem that uses it, and is treated as strict in its
argument sequence (the spec has it consume the whole sequence of values).
-/

namespace Historical

/-- Resolved child-future values, as discriminated by
`isinstance(r, (ErrorValue, Exception))` and
`isinstance(base, MultipleRiskMeasureResult)` in `_set_result`:
`err` is an `ErrorValue`, `exn` an `Exception` carried as a value,
`single` a single-measure result (opaque payload), and `multi` a
`MultipleRiskMeasureResult`, i.e. a dict from risk-measure keys to results
(represented as an association list in key-insertion order; dict semantics
assume the keys are distinct). -/
inductive RVal where
  | err (e : Nat)
  | exn (e : Nat)
  | single (v : Nat)
  | multi (m : List (Nat × RVal))

/-- The predicate `isinstance(r, (ErrorValue, Exception))` that
`_set_result` uses to skip improper results when choosing `base`. -/
def isErrorOrExn : RVal → Bool
  | .err _ => true
  | .exn _ => true
  | .single _ => false
  | .multi _ => false

/-- Dict lookup `m[k]` on a `MultipleRiskMeasureResult`:
`none` models a raised `KeyError`. -/
def rLookup (m : List (Nat × RVal)) (k : Nat) : Option RVal :=
  Option.map Prod.snd (m.find? (fun kv => kv.1 == k))

/-- Modelled from the spec: subscription `r[k]` for result values. The
concrete result classes (`MultipleRiskMeasureResult`, `ErrorValue`, the
single-measure results, defined in `gs_quant.risk` and
`gs_quant.risk.results`, which are not part of the analysed source) decide
this. A `MultipleRiskMeasureResult` is a dict, so `multi` looks the key up
(`none` = `KeyError`); for every other value the spec's composer formula
— `element[key] if element is a MultiMeasureResult else element` — has the
element pass through verbatim as an opaque positional placeholder. -/
def indexRV : RVal → Nat → Option RVal
  | .multi m, k => rLookup m k
  | r, _ => some r

/-- Sequencing of fallible evaluations, left to right, stopping at the
first failure — the evaluation order of a Python comprehension whose body
may raise. -/
def optionMapM (f : α → Option β) : List α → Option (List β)
  | [] => some []
  | a :: as => Option.bind (f a) (fun b => Option.map (fun bs => b :: bs) (optionMapM f as))

/-- The dict comprehension of `_set_result`'s MultipleRiskMeasureResult
branch: `{k: base[k].compose(r[k] for r in results) for k in base.keys()}`.
Keys are iterated in `base`'s order; for each key `k`, `base[k]` is looked
up and `compose` consumes `r[k]` for every `r` in `results` in order.
`none` models a raise (e.g. `KeyError` on a later result missing `k`),
which aborts the whole comprehension. -/
def composeMulti (c : RVal → List RVal → RVal) (m : List (Nat × RVal))
    (results : List RVal) : Option (List (Nat × RVal)) :=
  optionMapM
    (fun k =>
      Option.bind (rLookup m k) (fun bv =>
        Option.map (fun vs => (k, c bv vs)) (optionMapM (fun r => indexRV r k) results)))
    (m.map Prod.fst)

/-- Embedding of `HistoricalPricingFuture._set_result`, as a function from the ordered
list of resolved child values to the value set on the outward result
future. `results.find?` with the negated error test is
`next((r for r in results if not isinstance(r, (ErrorValue, Exception))), None)`;
if no proper result exists the first element is set verbatim (`head?`:
`none` models the `IndexError` on an empty list); a `multi` base goes
through the dict comprehension; any other base gets `base.compose(results)`
on the full ordered list. -/
def setResultValue (c : RVal → List RVal → RVal) (results : List RVal) : Option RVal :=
  match results.find? (fun r => !(isErrorOrExn r)) with
  | none => results.head?
  | some base =>
    match base with
    | .multi m => Option.map RVal.multi (composeMulti c m results)
    | _ => some (c base results)

/-- The state a successfully constructed `HistoricalPricingContext` keeps
for `calc`: the resolved `__date_range` tuple and the fixed evaluation
parameters forwarded to each per-date scope (dates are opaque, coded as
`Nat`). `is_async`, `is_batch` etc. are consumed by the parent
`PricingContext` constructor and do not influence the behaviour claimed
here beyond `market_data_location` and `use_cache`. -/
structure HistoricalPricingContext where
  dateRange : List Nat
  marketDataLocation : Option String
  useCache : Bool

/-- Embedding of `HistoricalPricingContext.__init__`. `dateRangeFn` stands for the
external collaborator `gs_quant.datetime.date.date_range` (spec boundary:
`resolve(start, end, calendars) -> ordered sequence of Date`), `today` for
`dt.date.today()`. Supplying `start` together with `dates`, or neither,
raises `ValueError`; with only `start`, a missing `end` defaults to
`today`, and the range is resolved through `dateRangeFn`; with only
`dates`, the supplied iterable is materialised as the date range. -/
def mkHistoricalPricingContext
    (dateRangeFn : Nat → Nat → List String → List Nat) (today : Nat)
    (start end_ : Option Nat) (calendars : List String)
    (dates : Option (List Nat))
    (marketDataLocation : Option String) (useCache : Bool) :
    Except String HistoricalPricingContext :=
  match start with
  | some s =>
    match dates with
    | some _ => Except.error "Must supply start or dates, not both"
    | none =>
      let e := match end_ with
        | none => today
        | some e => e
      Except.ok ⟨dateRangeFn s e calendars, marketDataLocation, useCache⟩
  | none =>
    match dates with
    | some ds => Except.ok ⟨ds, marketDataLocation, useCache⟩
    | none => Except.error "Must supply start or dates"

/-- Embedding of `HistoricalPricingContext.resolve_fields`. `superResolve` stands for
the parent class implementation `PricingContext.resolve_fields` (in
`gs_quant.markets.core`, outside the analysed source); `in_place = True`
raises `RuntimeError` before any resolution happens, otherwise the call is
delegated unchanged. -/
def resolve_fields (superResolve : P → Bool → O) (priceable : P)
    (in_place : Bool) : Except String O :=
  if in_place then
    Except.error "Cannot resolve in place under a HistoricalPricingContext"
  else
    Except.ok (superResolve priceable in_place)

/-- The parameters of the scoped per-date `PricingContext` opened by
`calc`: `PricingContext(pricing_date=date, market_data_location=...,
use_cache=..., is_async=True)`. -/
structure PricingScope where
  pricingDate : Nat
  marketDataLocation : Option String
  useCache : Bool
  isAsync : Bool
deriving DecidableEq

/-- Embedding of `HistoricalPricingContext.calc`. `submit` stands for the external
evaluation engine (`pc.calc(priceable, risk_measure)` inside the scoped
context): given the scope parameters and the target computation it returns
a child future, coded as an opaque value of `F`. `calc` iterates
`__date_range` in order, opens a scope pinned to each date and the fixed
parameters with `is_async=True`, submits the computation, and appends the
returned future; the collected handles are returned without awaiting any
of them. -/
def HistoricalPricingContext.calc (ctx : HistoricalPricingContext)
    (submit : PricingScope → P → R → F) (priceable : P) (risk_measure : R) :
    List F :=
  ctx.dateRange.map (fun d =>
    submit ⟨d, ctx.marketDataLocation, ctx.useCache, true⟩ priceable risk_measure)

/-- The scoped per-date pricing contexts `calc` opens (the
`with PricingContext(pricing_date=date, market_data_location=...,
use_cache=..., is_async=True)` headers), one per date, in iteration
order. -/
def HistoricalPricingContext.calcScopes (ctx : HistoricalPricingContext) :
    List PricingScope :=
  ctx.dateRange.map (fun d => ⟨d, ctx.marketDataLocation, ctx.useCache, true⟩)

/-! Helper lemmas about the dict comprehension of the `multi` branch. -/

/-- Each entry the comprehension body produces for key `k` is keyed by `k`. -/
theorem composeMulti_body_fst (c : RVal → List RVal → RVal)
    (m : List (Nat × RVal)) (results : List RVal) :
    ∀ k p, Option.bind (rLookup m k) (fun bv =>
        Option.map (fun vs => (k, c bv vs))
          (optionMapM (fun r => indexRV r k) results)) = some p → p.1 = k := by
  intro k p h
  cases hb : rLookup m k with
  | none => rw [hb] at h; exact absurd h (by simp)
  | some bv =>
    rw [hb] at h
    cases hv : optionMapM (fun r => indexRV r k) results with
    | none => rw [hv] at h; exact absurd h (by simp)
    | some vs =>
      rw [hv] at h
      simp only [Option.some_bind, Option.map_some'] at h
      cases h
      rfl

/-- If every entry produced for key `k` is keyed by `k`, a successful
comprehension over `ks` produces pairs whose keys are exactly `ks` in
order. -/
theorem optionMapM_map_fst (g : Nat → Option (Nat × RVal))
    (hg : ∀ k p, g k = some p → p.1 = k) :
    ∀ (ks : List Nat) (pairs : List (Nat × RVal)),
      optionMapM g ks = some pairs → pairs.map Prod.fst = ks := by
  intro ks
  induction ks with
  | nil =>
    intro pairs h
    simp only [optionMapM, Option.some.injEq] at h
    rw [← h]
    rfl
  | cons k ks ih =>
    intro pairs h
    simp only [optionMapM] at h
    cases hgk : g k with
    | none => rw [hgk] at h; exact absurd h (by simp)
    | some p =>
      rw [hgk] at h
      cases hrest : optionMapM g ks with
      | none => rw [hrest] at h; exact absurd h (by simp)
      | some rest =>
        rw [hrest] at h
        simp only [Option.some_bind, Option.map_some', Option.some.injEq] at h
        rw [← h]
        simp [hg k p hgk, ih rest hrest]

/-- Successful lookup on a `MultipleRiskMeasureResult` means the key is
among its keys. -/
theorem rLookup_mem (m : List (Nat × RVal)) (k : Nat) (bv : RVal)
    (h : rLookup m k = some bv) : k ∈ m.map Prod.fst := by
  unfold rLookup at h
  cases hf : m.find? (fun kv => kv.1 == k) with
  | none => rw [hf] at h; exact absurd h (by simp)
  | some kv =>
    have hmem := List.mem_of_find?_eq_some hf
    have hkey := List.find?_some hf
    have : kv.1 = k := by simpa using hkey
    rw [← this]
    exact List.mem_map_of_mem Prod.fst hmem

/-- Looking up `k` in the pairs a successful comprehension produced
returns exactly the value the body produced for `k`, provided the iterated
keys are distinct (the dict invariant). -/
theorem optionMapM_rLookup (g : Nat → Option (Nat × RVal))
    (hg : ∀ k p, g k = some p → p.1 = k) :
    ∀ (ks : List Nat), ks.Nodup →
      ∀ (pairs : List (Nat × RVal)), optionMapM g ks = some pairs →
        ∀ k ∈ ks, ∃ p, g k = some p ∧ rLookup pairs k = some p.2 := by
  intro ks
  induction ks with
  | nil => intro _ pairs _ k hk; exact absurd hk (List.not_mem_nil k)
  | cons k0 ks ih =>
    intro hnd pairs h k hk
    simp only [optionMapM] at h
    cases hgk : g k0 with
    | none => rw [hgk] at h; exact absurd h (by simp)
    | some p0 =>
      rw [hgk] at h
      cases hrest : optionMapM g ks with
      | none => rw [hrest] at h; exact absurd h (by simp)
      | some rest =>
        rw [hrest] at h
        simp only [Option.some_bind, Option.map_some', Option.some.injEq] at h
        rw [← h]
        have hnd' := List.nodup_cons.mp hnd
        have hp0 : p0.1 = k0 := hg k0 p0 hgk
        rcases List.mem_cons.mp hk with hk0 | hks
        · refine ⟨p0, hk0 ▸ hgk, ?_⟩
          unfold rLookup
          have hfc : List.find? (fun kv => kv.1 == k) (p0 :: rest) = some p0 :=
            List.find?_cons_of_pos _ (by simp [hp0, hk0])
          rw [hfc]
          rfl
        · obtain ⟨p, hp, hlook⟩ := ih hnd'.2 rest hrest k hks
          refine ⟨p, hp, ?_⟩
          have hne : k0 ≠ k := fun he => hnd'.1 (he ▸ hks)
          unfold rLookup
          have hfc : List.find? (fun kv => kv.1 == k) (p0 :: rest) =
              List.find? (fun kv => kv.1 == k) rest :=
            List.find?_cons_of_neg _ (by simp [hp0, hne])
          rw [hfc]
          exact hlook

/-- When the first proper result is a `MultipleRiskMeasureResult`,
`_set_result` routes through the dict comprehension. -/
theorem setResultValue_multi (c : RVal → List RVal → RVal)
    (results : List RVal) (m : List (Nat × RVal))
    (hfind : results.find? (fun r => !(isErrorOrExn r)) = some (RVal.multi m)) :
    setResultValue c results = Option.map RVal.multi (composeMulti c m results) := by
  unfold setResultValue
  rw [hfind]

/-- C1: when the first proper result of the ordered resolved-results list
is a `MultipleRiskMeasureResult` `base` (with the dict invariant of
distinct keys) and composition succeeds, the value set on the outward
future is a `MultipleRiskMeasureResult` assigning to each key `k` of
`base` the value of `base[k].compose` applied to the ordered sequence
`element[k] if element is a MultiMeasureResult else element` over the
results — ErrorValue entries pass to compose verbatim and positionally. -/
theorem C1_multi_base_per_key_compose (c : RVal → List RVal → RVal)
    (results : List RVal) (m : List (Nat × RVal)) (res : RVal)
    (hfind : results.find? (fun r => !(isErrorOrExn r)) = some (RVal.multi m))
    (hnd : (m.map Prod.fst).Nodup)
    (hres : setResultValue c results = some res) :
    ∃ pairs, res = RVal.multi pairs ∧
      ∀ k bv, rLookup m k = some bv →
        ∃ vs, optionMapM (fun r => indexRV r k) results = some vs ∧
          rLookup pairs k = some (c bv vs) := by
  rw [setResultValue_multi c results m hfind] at hres
  cases hcm : composeMulti c m results with
  | none => rw [hcm] at hres; exact absurd hres (by simp)
  | some pairs =>
    rw [hcm] at hres
    simp only [Option.map_some', Option.some.injEq] at hres
    refine ⟨pairs, hres.symm, ?_⟩
    intro k bv hbv
    have hk : k ∈ m.map Prod.fst := rLookup_mem m k bv hbv
    unfold composeMulti at hcm
    obtain ⟨p, hp, hlook⟩ :=
      optionMapM_rLookup _ (composeMulti_body_fst c m results) _ hnd _ hcm k hk
    rw [hbv] at hp
    cases hv : optionMapM (fun r => indexRV r k) results with
    | none => rw [hv] at hp; exact absurd hp (by simp)
    | some vs =>
      rw [hv] at hp
      simp only [Option.some_bind, Option.map_some', Option.some.injEq] at hp
      exact ⟨vs, rfl, by rw [hlook, ← hp]⟩

/-- C1 witness: three dates, the first failed with an ErrorValue, the
other two carry two-key MultipleRiskMeasureResults; the per-key sequences
contain the ErrorValue positionally. -/
theorem C1_multi_base_per_key_compose_witness :
    ([RVal.err 0,
      RVal.multi [(1, RVal.single 10), (2, RVal.single 20)],
      RVal.multi [(1, RVal.single 11), (2, RVal.single 21)]].find?
        (fun r => !(isErrorOrExn r)) =
      some (RVal.multi [(1, RVal.single 10), (2, RVal.single 20)])) ∧
    ∃ pairs,
      RVal.multi [(1, RVal.single 3), (2, RVal.single 3)] = RVal.multi pairs ∧
      ∀ k bv, rLookup [(1, RVal.single 10), (2, RVal.single 20)] k = some bv →
        ∃ vs, optionMapM (fun r => indexRV r k)
            [RVal.err 0,
             RVal.multi [(1, RVal.single 10), (2, RVal.single 20)],
             RVal.multi [(1, RVal.single 11), (2, RVal.single 21)]] = some vs ∧
          rLookup pairs k = some (RVal.single vs.length) := by
  exact ⟨rfl, C1_multi_base_per_key_compose (fun _ vs => RVal.single vs.length)
    _ _ _ rfl (by decide) rfl⟩

/-- C2: when no element of the resolved-results list is a proper Result
(every element is an ErrorValue or an Exception), the value set on the
outward future is exactly the first element of the list, verbatim, for
every compose capability — no compose call is made. -/
theorem C2_no_proper_result_first_verbatim (c : RVal → List RVal → RVal)
    (results : List RVal) (r0 : RVal)
    (hhead : results.head? = some r0)
    (hall : ∀ r ∈ results, isErrorOrExn r = true) :
    setResultValue c results = some r0 ∧
      ∀ cc : RVal → List RVal → RVal, setResultValue cc results = some r0 := by
  have hfind : results.find? (fun r => !(isErrorOrExn r)) = none := by
    rw [List.find?_eq_none]
    intro x hx
    simp [hall x hx]
  have h : ∀ cc : RVal → List RVal → RVal, setResultValue cc results = some r0 := by
    intro cc
    unfold setResultValue
    rw [hfind]
    exact hhead
  exact ⟨h c, h⟩

/-- C2 witness: an ErrorValue followed by an Exception; the output is the
first ErrorValue for two different compose capabilities. -/
theorem C2_no_proper_result_first_verbatim_witness :
    ([RVal.err 0, RVal.exn 1].head? = some (RVal.err 0)) ∧
    setResultValue (fun _ _ => RVal.single 0) [RVal.err 0, RVal.exn 1] =
      some (RVal.err 0) ∧
    setResultValue (fun _ vs => RVal.single vs.length) [RVal.err 0, RVal.exn 1] =
      some (RVal.err 0) := by
  refine ⟨rfl, ?_, ?_⟩
  · exact (C2_no_proper_result_first_verbatim (fun _ _ => RVal.single 0)
      [RVal.err 0, RVal.exn 1] (RVal.err 0) rfl (by decide)).1
  · exact (C2_no_proper_result_first_verbatim (fun _ _ => RVal.single 0)
      [RVal.err 0, RVal.exn 1] (RVal.err 0) rfl (by decide)).2 _

/-- C3: when the first proper result is a single-measure result, the value
set on the outward future is `base.compose` applied exactly once to the
full ordered results list, ErrorValue entries included at their original
positions. -/
theorem C3_single_base_compose_full_list (c : RVal → List RVal → RVal)
    (results : List RVal) (v : Nat)
    (hfind : results.find? (fun r => !(isErrorOrExn r)) = some (RVal.single v)) :
    setResultValue c results = some (c (RVal.single v) results) := by
  unfold setResultValue
  rw [hfind]

/-- C3 witness: the spec's concrete scenario — values 10 and 30 succeed,
the middle date fails; compose receives the full three-element list with
the error at position 1. -/
theorem C3_single_base_compose_full_list_witness :
    ([RVal.single 10, RVal.err 1, RVal.single 30].find?
        (fun r => !(isErrorOrExn r)) = some (RVal.single 10)) ∧
    setResultValue (fun _ vs => RVal.single vs.length)
      [RVal.single 10, RVal.err 1, RVal.single 30] = some (RVal.single 3) := by
  exact ⟨rfl, C3_single_base_compose_full_list (fun _ vs => RVal.single vs.length)
    _ _ rfl⟩

/-- C4: when the first proper result is a `MultipleRiskMeasureResult`
`base` and composition succeeds, the value set on the outward future is a
`MultipleRiskMeasureResult` whose key sequence equals exactly `base`'s key
sequence — later results' additional keys never appear. -/
theorem C4_key_set_from_first_base (c : RVal → List RVal → RVal)
    (results : List RVal) (m : List (Nat × RVal)) (res : RVal)
    (hfind : results.find? (fun r => !(isErrorOrExn r)) = some (RVal.multi m))
    (hres : setResultValue c results = some res) :
    ∃ pairs, res = RVal.multi pairs ∧ pairs.map Prod.fst = m.map Prod.fst := by
  rw [setResultValue_multi c results m hfind] at hres
  cases hcm : composeMulti c m results with
  | none => rw [hcm] at hres; exact absurd hres (by simp)
  | some pairs =>
    rw [hcm] at hres
    simp only [Option.map_some', Option.some.injEq] at hres
    unfold composeMulti at hcm
    exact ⟨pairs, hres.symm,
      optionMapM_map_fst _ (composeMulti_body_fst c m results) _ _ hcm⟩

/-- C4 witness: the second result carries an additional key 2; the
aggregate's keys are exactly the first result's single key 1. -/
theorem C4_key_set_from_first_base_witness :
    ([RVal.multi [(1, RVal.single 10)],
      RVal.multi [(1, RVal.single 11), (2, RVal.single 22)]].find?
        (fun r => !(isErrorOrExn r)) = some (RVal.multi [(1, RVal.single 10)])) ∧
    setResultValue (fun _ vs => RVal.single vs.length)
        [RVal.multi [(1, RVal.single 10)],
         RVal.multi [(1, RVal.single 11), (2, RVal.single 22)]] =
      some (RVal.multi [(1, RVal.single 2)]) ∧
    ∃ pairs, RVal.multi [(1, RVal.single 2)] = RVal.multi pairs ∧
      pairs.map Prod.fst = [1] := by
  exact ⟨rfl, rfl, C4_key_set_from_first_base (fun _ vs => RVal.single vs.length)
    [RVal.multi [(1, RVal.single 10)],
     RVal.multi [(1, RVal.single 11), (2, RVal.single 22)]]
    [(1, RVal.single 10)] (RVal.multi [(1, RVal.single 2)]) rfl rfl⟩

/-- C10: the value `_set_result` sets on the outward future is a function
of the ordered list of resolved child values alone — two runs with
element-wise equal result lists set equal values. -/
theorem C10_set_result_deterministic (c : RVal → List RVal → RVal)
    (results1 results2 : List RVal) (h : results1 = results2) :
    setResultValue c results1 = setResultValue c results2 := by
  rw [h]

/-- C10 witness: the determinism theorem applied at a concrete result
list. -/
theorem C10_set_result_deterministic_witness :
    ([RVal.err 0, RVal.single 5] = [RVal.err 0, RVal.single 5]) ∧
    setResultValue (fun _ vs => RVal.single vs.length)
        [RVal.err 0, RVal.single 5] =
      setResultValue (fun _ vs => RVal.single vs.length)
        [RVal.err 0, RVal.single 5] :=
  ⟨rfl, C10_set_result_deterministic (fun _ vs => RVal.single vs.length)
    _ _ rfl⟩

/-- C5: `calc` produces exactly one child future per date of the
DateSequence, and the future at index `i` is the one submitted for the
date at index `i` — futures are appended in DateSequence iteration
order. -/
theorem C5_one_future_per_date_in_order {P R F : Type}
    (ctx : HistoricalPricingContext) (submit : PricingScope → P → R → F)
    (priceable : P) (rm : R) :
    (ctx.calc submit priceable rm).length = ctx.dateRange.length ∧
    ∀ i : Nat, (ctx.calc submit priceable rm)[i]? =
      (ctx.dateRange[i]?).map (fun d =>
        submit ⟨d, ctx.marketDataLocation, ctx.useCache, true⟩ priceable rm) := by
  constructor
  · simp [HistoricalPricingContext.calc]
  · intro i
    simp [HistoricalPricingContext.calc]

/-- C6: construction fails with `ValueError` when both `start` and `dates`
are supplied and when neither is; it succeeds with only `dates` (the
supplied dates become the range) and with only `start` (a missing `end`
defaulting to today before the external range resolution). The failures
happen in the constructor itself — no date range exists and nothing is
scheduled. -/
theorem C6_construction_validation
    (f : Nat → Nat → List String → List Nat) (today : Nat)
    (s e : Nat) (cal : List String) (ds : List Nat)
    (mdl : Option String) (uc : Bool) :
    (∀ e' : Option Nat,
      mkHistoricalPricingContext f today (some s) e' cal (some ds) mdl uc =
        Except.error "Must supply start or dates, not both") ∧
    (∀ e' : Option Nat,
      mkHistoricalPricingContext f today none e' cal none mdl uc =
        Except.error "Must supply start or dates") ∧
    (mkHistoricalPricingContext f today none none cal (some ds) mdl uc =
      Except.ok ⟨ds, mdl, uc⟩) ∧
    (mkHistoricalPricingContext f today (some s) none cal none mdl uc =
      Except.ok ⟨f s today cal, mdl, uc⟩) ∧
    (mkHistoricalPricingContext f today (some s) (some e) cal none mdl uc =
      Except.ok ⟨f s e cal, mdl, uc⟩) :=
  ⟨fun _ => rfl, fun _ => rfl, rfl, rfl, rfl⟩

/-- C7: `resolve_fields` with `in_place = True` raises without invoking
the parent resolution at all (the outcome is the same for any parent
implementation); with `in_place = False` the call is delegated unchanged
to the parent implementation. -/
theorem C7_resolve_fields_in_place {P O : Type}
    (superResolve superResolveOther : P → Bool → O) (priceable : P) :
    resolve_fields superResolve priceable true =
      Except.error "Cannot resolve in place under a HistoricalPricingContext" ∧
    resolve_fields superResolve priceable true =
      resolve_fields superResolveOther priceable true ∧
    resolve_fields superResolve priceable false =
      Except.ok (superResolve priceable false) :=
  ⟨rfl, rfl, rfl⟩

/-- C8: for each index `i`, `calc` opens one scoped evaluation context
pinned to the `i`-th date and to the context's fixed parameters
(market-data location, caching flag) with `is_async = True`, and the
`i`-th recorded handle is the asynchronous submission inside that very
scope; `calc` returns the handles themselves, never a child's awaited
result. -/
theorem C8_scoped_async_submission {P R F : Type}
    (ctx : HistoricalPricingContext) (submit : PricingScope → P → R → F)
    (priceable : P) (rm : R) :
    ctx.calcScopes.length = ctx.dateRange.length ∧
    (∀ i : Nat, ctx.calcScopes[i]? =
      (ctx.dateRange[i]?).map (fun d =>
        PricingScope.mk d ctx.marketDataLocation ctx.useCache true)) ∧
    (∀ i : Nat, (ctx.calc submit priceable rm)[i]? =
      (ctx.calcScopes[i]?).map (fun sc => submit sc priceable rm)) := by
  refine ⟨?_, ?_, ?_⟩
  · simp [HistoricalPricingContext.calcScopes]
  · intro i
    simp [HistoricalPricingContext.calcScopes]
  · intro i
    simp only [HistoricalPricingContext.calc, HistoricalPricingContext.calcScopes,
      List.getElem?_map, Option.map_map]
    cases h : ctx.dateRange[i]? <;> rfl

/-- C9: an empty `dates` iterable (with `start` absent) is accepted —
emptiness and distinctness are not validated, duplicate dates pass
through unchanged — and `calc` on the resulting context iterates zero
dates and records no submissions. -/
theorem C9_empty_dates_accepted
    (f : Nat → Nat → List String → List Nat) (today : Nat)
    (cal : List String) (mdl : Option String) (uc : Bool) :
    (mkHistoricalPricingContext f today none none cal (some []) mdl uc =
      Except.ok ⟨[], mdl, uc⟩) ∧
    (∀ d : Nat,
      mkHistoricalPricingContext f today none none cal (some [d, d]) mdl uc =
        Except.ok ⟨[d, d], mdl, uc⟩) ∧
    ∀ (P R F : Type) (submit : PricingScope → P → R → F) (priceable : P) (rm : R),
      HistoricalPricingContext.calc ⟨[], mdl, uc⟩ submit priceable rm = [] :=
  ⟨rfl, fun _ => rfl, fun _ _ _ _ _ _ => rfl⟩

end Historical
